import Mathlib

/-!
Shallow embedding of the rag-ai-agent pipeline (src/src/ingestion.py,
src/src/smart_pdf_loader.py, src/src/pdf_chat.py) together with the parts of
langchain's `RecursiveCharacterTextSplitter` that `Ingestor.ingest_file`
instantiates (default separators, `keep_separator=True`,
`strip_whitespace=True`, length function `len`).

Text is modelled as `List Char`.  Machine-level details (the embedding model,
the Chroma store's similarity search, the actual PDF parser and the OCR
engine) are external collaborators and appear as parameters or as abstract
per-page data.
-/

/-- Whitespace test matching Python's `str.strip` on the ASCII whitespace
characters (space, tab, newline, carriage return, vertical tab, form feed). -/
def isPySpace (c : Char) : Bool :=
  c = ' ' || c = '\t' || c = '\n' || c = '\x0d' || c = '\x0b' || c = '\x0c'

/-- Python `str.strip()`: drop whitespace from both ends. -/
def pyStrip (l : List Char) : List Char :=
  ((l.dropWhile isPySpace).reverse.dropWhile isPySpace).reverse

/-- Python `pathlib.PurePath.suffix` of a file name (the final path
component): the substring from the last dot on, provided that dot is neither
the first nor the last character; otherwise the empty string. -/
def pySuffix (name : List Char) : List Char :=
  match (name.enum.filter (fun x => x.2 = '.')).getLast? with
  | none => []
  | some x => if 0 < x.1 ∧ x.1 < name.length - 1 then name.drop x.1 else []

/-- A langchain `Document` restricted to the metadata keys this repository
reads or writes: `source`, `page`, `ocr`, `chunk_id`.  A key absent from the
metadata dict is `none`. -/
structure Document where
  page_content : List Char
  source : Option (List Char) := none
  page : Option Nat := none
  ocr : Option Bool := none
  chunk_id : Option Nat := none
deriving Repr, DecidableEq

/-- One page of the input PDF, as seen by `SmartPDFLoader`: the text PyMuPDF
extracts natively, and what rasterization + Tesseract would return for the
page (`none` when `convert_from_path` yields no image). -/
structure PdfPage where
  nativeText : List Char
  ocrResult : Option (List Char)
deriving Repr, DecidableEq

namespace SmartPDFLoader

/-- `SmartPDFLoader._ocr_page`: rasterize exactly the requested page, OCR it,
strip the result, and return a `Document` (with `ocr = true`) only when the
stripped text is non-empty. -/
def ocr_page (src : List Char) (pageNum : Nat) (p : PdfPage) : Option Document :=
  match p.ocrResult with
  | none => none
  | some t =>
      let t := pyStrip t
      if t = [] then none
      else some { page_content := t, source := some src, page := some pageNum, ocr := some true }

/-- The body of `SmartPDFLoader.load` for one page, instrumented with a flag
recording whether `_ocr_page` was invoked.  `pageNum` is the 1-indexed page
number. -/
def loadPage (src : List Char) (pageNum : Nat) (p : PdfPage) : Option Document × Bool :=
  let text := pyStrip p.nativeText
  if text ≠ [] then
    (some { page_content := text, source := some src, page := some pageNum, ocr := some false },
     false)
  else
    (ocr_page src pageNum p, true)

/-- Errors raised by the pipeline (`FileNotFoundError` in
`SmartPDFLoader.load`, `ValueError` for a non-pdf file in
`Ingestor.ingest_file`). -/
inductive PipelineError where
  | fileNotFound
  | unsupportedFileType
deriving Repr, DecidableEq

/-- `SmartPDFLoader.load`: fail with `FileNotFoundError` when the path does
not exist (`pdf = none`); otherwise process pages in document order with
1-indexed page numbers, appending the per-page document when one is
produced. -/
def load (src : List Char) (pdf : Option (List PdfPage)) :
    Except PipelineError (List Document) :=
  match pdf with
  | none => .error .fileNotFound
  | some pages => .ok (pages.enum.filterMap (fun x => (loadPage src (x.1 + 1) x.2).1))

end SmartPDFLoader

/-! ## langchain `RecursiveCharacterTextSplitter`

`ingest_file` constructs `RecursiveCharacterTextSplitter(chunk_size, chunk_overlap)`
with all other options at their defaults: separators `["\n\n", "\n", " ", ""]`,
`keep_separator=True` (separators are re-attached to the front of the
following piece and merging joins with the empty separator),
`is_separator_regex=False` (separators are `re.escape`d, so matching is plain
substring matching), `strip_whitespace=True`, and length function `len`. -/

/-- Substring occurrence test: `re.search(re.escape(sep), text)` for a
non-empty literal separator. -/
def occursIn (sep : List Char) : List Char → Bool
  | [] => sep.isEmpty
  | c :: cs => sep.isPrefixOf (c :: cs) || occursIn sep cs

/-- The separator-selection loop at the top of `_split_text`: walk the
separator list, stopping at `""` or at the first separator that occurs in the
text; return it with the remaining separators.  Models the Python loop for
separator lists that contain `""` (the default list does), where the loop
never falls through. -/
def chooseSep (text : List Char) : List (List Char) → List Char × List (List Char)
  | [] => ([], [])
  | s :: rest =>
      if s = [] then ([], [])
      else if occursIn s text then (s, rest)
      else chooseSep text rest

/-- Pieces of `text` between leftmost non-overlapping occurrences of the
non-empty separator `sep` (the split pieces of `re.split` with one capture
group, separators omitted).  Each step consumes at least one character, so
the recursion is bounded by the text length; `fuel` makes that bound
structural and is never exhausted from the initial value `text.length`. -/
def splitOnSepFuel (sep : List Char) : Nat → List Char → List (List Char)
  | _, [] => [[]]
  | 0, _ :: _ => [[]]
  | fuel + 1, c :: cs =>
      if 0 < sep.length ∧ sep.isPrefixOf (c :: cs) then
        [] :: splitOnSepFuel sep fuel (List.drop sep.length (c :: cs))
      else
        match splitOnSepFuel sep fuel cs with
        | [] => [[c]]
        | p :: ps => (c :: p) :: ps

/-- `re.split` pieces of `text` on the non-empty literal separator `sep`. -/
def splitOnSep (sep text : List Char) : List (List Char) :=
  splitOnSepFuel sep text.length text

/-- `_split_text_with_regex(text, sep, keep_separator=True)`: split into the
single characters when the separator is empty, otherwise re-attach each
separator occurrence to the front of the following piece; drop empty
strings. -/
def splitWithSep (text sep : List Char) : List (List Char) :=
  if sep = [] then (text.map (fun c => [c])).filter (fun s => !s.isEmpty)
  else
    match splitOnSep sep text with
    | [] => []
    | p :: ps => (p :: ps.map (fun q => sep ++ q)).filter (fun s => !s.isEmpty)

/-- Total length of the pending merge buffer (`total` in `_merge_splits`;
the join separator is `""`, so its length contributes nothing). -/
def sumLen (l : List (List Char)) : Nat := (l.map List.length).sum

/-- The `while` loop of `_merge_splits` that pops splits off the front of the
buffer until the buffer fits under `chunk_overlap` and leaves room (within
`chunk_size`) for the incoming split of length `dlen`. -/
def popLoop (co cs dlen : Nat) : List (List Char) → List (List Char)
  | [] => []
  | c :: rest =>
      if sumLen (c :: rest) > co ∨ (sumLen (c :: rest) + dlen > cs ∧ sumLen (c :: rest) > 0)
      then popLoop co cs dlen rest
      else c :: rest

/-- `_join_docs` with separator `""` and `strip_whitespace=True`: join the
buffer, strip it, and emit it unless the result is empty. -/
def joinStrip (cur : List (List Char)) : List (List Char) :=
  let t := pyStrip cur.flatten
  if t = [] then [] else [t]

/-- The main loop of `_merge_splits` (join separator `""`): accumulate splits
in a buffer; when the next split would overflow `chunk_size`, emit the
joined-and-stripped buffer and pop from its front per `popLoop`; emit the
final buffer at the end. -/
def mergeLoop (cs co : Nat) : List (List Char) → List (List Char) → List (List Char)
  | [], cur => joinStrip cur
  | d :: ds, cur =>
      if sumLen cur + d.length > cs then
        joinStrip cur ++ mergeLoop cs co ds (popLoop co cs d.length cur ++ [d])
      else
        mergeLoop cs co ds (cur ++ [d])

/-- `_merge_splits(splits, "")`. -/
def mergeSplits (cs co : Nat) (splits : List (List Char)) : List (List Char) :=
  mergeLoop cs co splits []

/-- The split-classification loop of `_split_text`: splits shorter than
`chunk_size` are buffered as good splits; a long split first flushes the
buffer through `_merge_splits`, then is handed to `handleBad` (recursion when
deeper separators remain, otherwise emitted as-is); a trailing buffer is
flushed at the end. -/
def processLoop (cs co : Nat) (handleBad : List Char → List (List Char)) :
    List (List Char) → List (List Char) → List (List Char)
  | [], goods => if goods.isEmpty then [] else mergeSplits cs co goods
  | s :: rest, goods =>
      if s.length < cs then processLoop cs co handleBad rest (goods ++ [s])
      else
        (if goods.isEmpty then [] else mergeSplits cs co goods) ++ handleBad s
          ++ processLoop cs co handleBad rest []

/-- `RecursiveCharacterTextSplitter._split_text(text, seps)`.  The Python
function recurses on the remainder of the separator list, which is a strict
suffix whenever it recurses; `fuel` makes that descent structural and is
never exhausted from the initial value `seps.length` (at fuel `0` the
separator list is empty, `chooseSep` leaves no remainder, and both branches
agree on emitting the long split as-is). -/
def splitTextRec (cs co : Nat) : Nat → List (List Char) → List Char → List (List Char)
  | 0, seps, text =>
      processLoop cs co (fun s => [s]) (splitWithSep text (chooseSep text seps).1) []
  | fuel + 1, seps, text =>
      processLoop cs co
        (fun s =>
          if (chooseSep text seps).2 = [] then [s]
          else splitTextRec cs co fuel (chooseSep text seps).2 s)
        (splitWithSep text (chooseSep text seps).1) []

/-- The default separator list `["\n\n", "\n", " ", ""]`. -/
def defaultSeparators : List (List Char) := [['\n', '\n'], ['\n'], [' '], []]

/-- `RecursiveCharacterTextSplitter.split_text` as instantiated by
`Ingestor.ingest_file` (default separators). -/
def split_text (cs co : Nat) (text : List Char) : List (List Char) :=
  splitTextRec cs co defaultSeparators.length defaultSeparators text

/-- `TextSplitter.split_documents`: split each document's text and copy its
metadata onto every resulting chunk. -/
def split_documents (cs co : Nat) (docs : List Document) : List Document :=
  docs.flatMap (fun d =>
    (split_text cs co d.page_content).map (fun t => { d with page_content := t }))

/-! ## `Ingestor` (src/src/ingestion.py) -/

/-- The persisted Chroma collection at the configured storage location,
abstracted to the list of documents it holds. -/
structure StoreState where
  persisted : List Document
deriving Repr, DecidableEq

namespace Ingestor

/-- The page marker `ingest_file` prepends: `f"[PAGINA {page}]\n"`. -/
def pageTag (p : Nat) : List Char :=
  "[PAGINA ".toList ++ (toString p).toList ++ [']', '\n']

/-- One iteration of the metadata loop in `ingest_file` at position `idx`:
`setdefault` of `source` and `ocr`, assignment of `chunk_id`, and the page
marker prepended to the text when the chunk has a `page`. -/
def processChunk (fileName : List Char) (idx : Nat) (d : Document) : Document :=
  let d2 : Document :=
    { d with source := some (d.source.getD fileName),
             ocr := some (d.ocr.getD false),
             chunk_id := some idx }
  match d2.page with
  | some p => { d2 with page_content := pageTag p ++ d2.page_content }
  | none => d2

/-- The chunk list `ingest_file` hands to `vector_store.add_documents`:
the split documents, each rewritten by `processChunk` at its 0-based
position. -/
def ingestChunks (cs co : Nat) (fileName : List Char) (pages : List Document) :
    List Document :=
  (split_documents cs co pages).enum.map (fun x => processChunk fileName x.1 x.2)

/-- `Ingestor._instantiate_vector_store`, called from `Ingestor.__init__`:
delete the persist directory if it exists and open a fresh (empty)
collection there. -/
def instantiate_vector_store (_prior : StoreState) : StoreState := ⟨[]⟩

/-- `Ingestor.__init__`'s effect on the persisted store: it ends by calling
`_instantiate_vector_store`. -/
def init (prior : StoreState) : StoreState := instantiate_vector_store prior

/-- `Ingestor.ingest_file`: reject a file whose `Path.suffix` is not exactly
`.pdf`; otherwise load the pages with `SmartPDFLoader`, split them, rewrite
each chunk, and add the chunks to the current store. -/
def ingest_file (cs co : Nat) (fileName : List Char) (pdf : Option (List PdfPage))
    (st : StoreState) : Except SmartPDFLoader.PipelineError StoreState :=
  if pySuffix fileName ≠ ".pdf".toList then .error .unsupportedFileType
  else
    match SmartPDFLoader.load fileName pdf with
    | .error e => .error e
    | .ok pages => .ok ⟨st.persisted ++ ingestChunks cs co fileName pages⟩

end Ingestor

/-! ## `PdfChat` (src/src/pdf_chat.py)

The retriever (Chroma similarity search, `k = 15`) and the chat model are
external collaborators, passed as deterministic function parameters. -/

namespace PdfChat

/-- The input `create_retrieval_chain` feeds the chat model: the user's
question and the retrieved context (the stuff-documents chain joins the
retrieved documents' page contents with `"\n\n"`). -/
structure PromptInput where
  question : List Char
  context : List Char
deriving Repr, DecidableEq

/-- Retrieval plus prompt composition for one `ask` call: retrieve the top 15
documents for the query from the store and render the prompt. -/
def promptInput (retrieve : StoreState → Nat → List Char → List Document)
    (st : StoreState) (q : List Char) : PromptInput :=
  ⟨q, (((retrieve st 15 q).map Document.page_content).intersperse "\n\n".toList).flatten⟩

/-- `PdfChat.ask`: invoke the retrieval chain on the query and return the
answer.  The method reads only the chain built at construction time (the
store and the prompt) and the query; it writes nothing, so the store state
is returned unchanged. -/
def ask (retrieve : StoreState → Nat → List Char → List Document)
    (chatModel : PromptInput → List Char) (st : StoreState) (q : List Char) :
    List Char × StoreState :=
  (chatModel (promptInput retrieve st q), st)

/-- A sequence of `ask` calls, threading the store state through. -/
def askMany (retrieve : StoreState → Nat → List Char → List Document)
    (chatModel : PromptInput → List Char) (st : StoreState) :
    List (List Char) → StoreState × List (List Char)
  | [] => (st, [])
  | q :: rest =>
      let r := ask retrieve chatModel st q
      let r2 := askMany retrieve chatModel r.2 rest
      (r2.1, r.1 :: r2.2)

end PdfChat

/-! ## Auxiliary lemmas -/

/-- `pyStrip` phrased with Mathlib's `rdropWhile`. -/
theorem pyStrip_eq_rdropWhile (l : List Char) :
    pyStrip l = List.rdropWhile isPySpace (List.dropWhile isPySpace l) := rfl

/-- The first element of a list is the first element of any non-empty
prefix. -/
theorem get_zero_of_append {α : Type} (X t A : List α) (ht : X ++ t = A)
    (hX : 0 < X.length) (hA : 0 < A.length) : A.get ⟨0, hA⟩ = X.get ⟨0, hX⟩ := by
  subst ht
  simp [List.get_eq_getElem, List.getElem_append_left hX]

/-- A stripped string has no leading whitespace left to drop. -/
theorem dropWhile_pyStrip (l : List Char) :
    List.dropWhile isPySpace (pyStrip l) = pyStrip l := by
  rw [pyStrip_eq_rdropWhile, List.dropWhile_eq_self_iff]
  intro hl
  obtain ⟨t, ht⟩ := List.rdropWhile_prefix isPySpace (List.dropWhile isPySpace l)
  have hlen : 0 < (List.dropWhile isPySpace l).length := by
    rw [← ht]
    simp only [List.length_append]
    omega
  rw [← get_zero_of_append _ t _ ht hl hlen]
  exact List.dropWhile_get_zero_not isPySpace l hlen

/-- `pyStrip` is idempotent: a stripped string is its own strip. -/
theorem pyStrip_idem (l : List Char) : pyStrip (pyStrip l) = pyStrip l := by
  rw [pyStrip_eq_rdropWhile (pyStrip l), dropWhile_pyStrip, pyStrip_eq_rdropWhile l,
      List.rdropWhile_idempotent]

/-- Stripping never lengthens a string. -/
theorem pyStrip_length_le (l : List Char) : (pyStrip l).length ≤ l.length := by
  unfold pyStrip
  have h1 := (List.dropWhile_suffix isPySpace (l := l)).length_le
  have h2 := (List.dropWhile_suffix isPySpace
    (l := (List.dropWhile isPySpace l).reverse)).length_le
  simp only [List.length_reverse] at h1 h2 ⊢
  omega

theorem sumLen_nil : sumLen [] = 0 := rfl

theorem sumLen_cons (d : List Char) (l : List (List Char)) :
    sumLen (d :: l) = d.length + sumLen l := by
  simp [sumLen]

theorem sumLen_append (a b : List (List Char)) :
    sumLen (a ++ b) = sumLen a + sumLen b := by
  simp [sumLen]

theorem sumLen_flatten (l : List (List Char)) : l.flatten.length = sumLen l := by
  simp [sumLen, List.length_flatten]

/-- Whatever `joinStrip` emits is no longer than the buffer's total length. -/
theorem joinStrip_bound (cur : List (List Char)) :
    ∀ c ∈ joinStrip cur, c.length ≤ sumLen cur := by
  intro c hc
  unfold joinStrip at hc
  by_cases h : pyStrip cur.flatten = []
  · simp [h] at hc
  · simp only [if_neg h, List.mem_singleton] at hc
    subst hc
    calc (pyStrip cur.flatten).length ≤ cur.flatten.length := pyStrip_length_le _
      _ = sumLen cur := sumLen_flatten cur

/-- On exit, the `while` loop of `_merge_splits` has shrunk the buffer to at
most `chunk_overlap` and left room for the incoming split (or emptied the
buffer). -/
theorem popLoop_spec (co cs dlen : Nat) (cur : List (List Char)) :
    sumLen (popLoop co cs dlen cur) ≤ co ∧
      (sumLen (popLoop co cs dlen cur) + dlen ≤ cs ∨ sumLen (popLoop co cs dlen cur) = 0) := by
  induction cur with
  | nil => exact ⟨Nat.zero_le _, Or.inr rfl⟩
  | cons c rest ih =>
      unfold popLoop
      by_cases h : sumLen (c :: rest) > co ∨
          (sumLen (c :: rest) + dlen > cs ∧ sumLen (c :: rest) > 0)
      · rw [if_pos h]
        exact ih
      · rw [if_neg h]
        omega

/-- Every chunk `_merge_splits` emits has length at most `chunk_size`,
provided every split is strictly shorter than `chunk_size` and the initial
buffer fits. -/
theorem mergeLoop_bound (cs co : Nat) (splits : List (List Char)) :
    ∀ cur, (∀ d ∈ splits, d.length < cs) → sumLen cur ≤ cs →
      ∀ c ∈ mergeLoop cs co splits cur, c.length ≤ cs := by
  induction splits with
  | nil =>
      intro cur _ hcur c hc
      unfold mergeLoop at hc
      exact le_trans (joinStrip_bound cur c hc) hcur
  | cons d ds ih =>
      intro cur hs hcur c hc
      have hd : d.length < cs := hs d (List.mem_cons_self d ds)
      have hs2 : ∀ x ∈ ds, x.length < cs := fun x hx => hs x (List.mem_cons_of_mem d hx)
      unfold mergeLoop at hc
      by_cases hover : sumLen cur + d.length > cs
      · rw [if_pos hover] at hc
        rcases List.mem_append.mp hc with h1 | h2
        · exact le_trans (joinStrip_bound cur c h1) hcur
        · refine ih _ hs2 ?_ c h2
          have hp := popLoop_spec co cs d.length cur
          rw [sumLen_append, sumLen_cons, sumLen_nil]
          omega
      · rw [if_neg hover] at hc
        refine ih _ hs2 ?_ c hc
        rw [sumLen_append, sumLen_cons, sumLen_nil]
        omega

/-- `mergeSplits` bound, starting from the empty buffer. -/
theorem mergeSplits_bound (cs co : Nat) (splits : List (List Char))
    (hs : ∀ d ∈ splits, d.length < cs) :
    ∀ c ∈ mergeSplits cs co splits, c.length ≤ cs :=
  mergeLoop_bound cs co splits [] hs (Nat.zero_le _)

/-- Every chunk the classification loop emits has length at most
`chunk_size`, provided the buffered goods are short and every bad split in
the input is handled into short chunks. -/
theorem processLoop_bound (cs co : Nat) (handleBad : List Char → List (List Char))
    (splits : List (List Char)) :
    ∀ goods, (∀ s ∈ splits, ¬ s.length < cs → ∀ c ∈ handleBad s, c.length ≤ cs) →
      (∀ g ∈ goods, g.length < cs) →
      ∀ c ∈ processLoop cs co handleBad splits goods, c.length ≤ cs := by
  induction splits with
  | nil =>
      intro goods _ hg c hc
      unfold processLoop at hc
      by_cases he : goods.isEmpty
      · rw [if_pos he] at hc
        simp at hc
      · rw [if_neg he] at hc
        exact mergeSplits_bound cs co goods hg c hc
  | cons s rest ih =>
      intro goods hbad hg c hc
      have hbad2 : ∀ x ∈ rest, ¬ x.length < cs → ∀ c2 ∈ handleBad x, c2.length ≤ cs :=
        fun x hx => hbad x (List.mem_cons_of_mem s hx)
      unfold processLoop at hc
      by_cases hlen : s.length < cs
      · rw [if_pos hlen] at hc
        refine ih _ hbad2 ?_ c hc
        intro g hgm
        rcases List.mem_append.mp hgm with h1 | h2
        · exact hg g h1
        · rw [List.mem_singleton] at h2
          subst h2
          exact hlen
      · rw [if_neg hlen] at hc
        rcases List.mem_append.mp hc with h12 | h3
        · rcases List.mem_append.mp h12 with h1 | h2
          · by_cases he : goods.isEmpty
            · rw [if_pos he] at h1
              simp at h1
            · rw [if_neg he] at h1
              exact mergeSplits_bound cs co goods hg c h1
          · exact hbad s (List.mem_cons_self s rest) hlen c h2
        · refine ih _ hbad2 ?_ c h3
          intro g hgm
          simp at hgm

/-- When `chooseSep` leaves a non-empty remainder it is a strict suffix of
the separator list. -/
theorem chooseSep_snd_length (text : List Char) (seps : List (List Char))
    (h : (chooseSep text seps).2 ≠ []) : (chooseSep text seps).2.length < seps.length := by
  induction seps with
  | nil => simp [chooseSep] at h
  | cons s rest ih =>
      by_cases hs : s = []
      · simp [chooseSep, hs] at h
      · by_cases ho : occursIn s text
        · simp only [chooseSep, if_neg hs, if_pos ho, List.length_cons]
          omega
        · simp only [chooseSep, if_neg hs, if_neg ho] at h ⊢
          exact Nat.lt_succ_of_lt (ih h)

/-- When `chooseSep` selects the empty separator it leaves no remaining
separators. -/
theorem chooseSep_fst_eq_nil (text : List Char) (seps : List (List Char))
    (h : (chooseSep text seps).1 = []) : (chooseSep text seps).2 = [] := by
  induction seps with
  | nil => rfl
  | cons s rest ih =>
      by_cases hs : s = []
      · simp [chooseSep, hs]
      · by_cases ho : occursIn s text
        · simp only [chooseSep, if_neg hs, if_pos ho] at h
          exact absurd h hs
        · simp only [chooseSep, if_neg hs, if_neg ho] at h ⊢
          exact ih h

/-- For a separator list ending in the empty separator, a non-empty selected
separator leaves a non-empty remainder that again ends in the empty
separator. -/
theorem chooseSep_snd_spec (text : List Char) (seps : List (List Char))
    (hlast : seps.getLast? = some [])
    (h : (chooseSep text seps).1 ≠ []) :
    (chooseSep text seps).2 ≠ [] ∧ (chooseSep text seps).2.getLast? = some [] := by
  induction seps with
  | nil => simp [chooseSep] at h
  | cons s rest ih =>
      by_cases hs : s = []
      · simp [chooseSep, hs] at h
      · cases rest with
        | nil =>
            simp only [List.getLast?_singleton, Option.some_inj] at hlast
            exact absurd hlast hs
        | cons r rs =>
            rw [List.getLast?_cons_cons] at hlast
            by_cases ho : occursIn s text
            · simp only [chooseSep, if_neg hs, if_pos ho]
              exact ⟨List.cons_ne_nil r rs, hlast⟩
            · simp only [chooseSep, if_neg hs, if_neg ho] at h ⊢
              exact ih hlast h

/-- Splitting with the empty separator yields single characters. -/
theorem splitWithSep_nil_sep (text : List Char) :
    ∀ s ∈ splitWithSep text [], s.length = 1 := by
  intro s hs
  unfold splitWithSep at hs
  rw [if_pos rfl] at hs
  rw [List.mem_filter] at hs
  obtain ⟨hmem, _⟩ := hs
  rw [List.mem_map] at hmem
  obtain ⟨c, _, hc⟩ := hmem
  subst hc
  rfl

/-- Every chunk `_split_text` produces has length at most `chunk_size`,
for a positive `chunk_size` and a separator list ending in the empty
separator (induction on the length of the separator list). -/
theorem splitTextRec_bound (cs co : Nat) (hcs : 0 < cs) :
    ∀ fuel (seps : List (List Char)), seps.length ≤ fuel → seps.getLast? = some [] →
      ∀ text c, c ∈ splitTextRec cs co fuel seps text → c.length ≤ cs := by
  intro fuel
  induction fuel with
  | zero =>
      intro seps hlen hlast
      rw [List.length_eq_zero.mp (Nat.le_zero.mp hlen)] at hlast
      simp at hlast
  | succ n ih =>
      intro seps hlen hlast text c hc
      unfold splitTextRec at hc
      refine processLoop_bound cs co _ _ [] ?_ (by intro g hg; simp at hg) c hc
      intro s hsmem hslen c2 hc2
      by_cases h2 : (chooseSep text seps).2 = []
      · rw [if_pos h2] at hc2
        rw [List.mem_singleton] at hc2
        rw [hc2]
        have h1 : (chooseSep text seps).1 = [] := by
          by_contra h1
          exact (chooseSep_snd_spec text seps hlast h1).1 h2
        rw [h1] at hsmem
        have := splitWithSep_nil_sep text s hsmem
        omega
      · rw [if_neg h2] at hc2
        have h1 : (chooseSep text seps).1 ≠ [] := fun h1 => h2 (chooseSep_fst_eq_nil text seps h1)
        have hspec := chooseSep_snd_spec text seps hlast h1
        have hlt := chooseSep_snd_length text seps h2
        exact ih (chooseSep text seps).2 (by omega) hspec.2 s c2 hc2

/-- Every chunk of `split_text` (default separators) has length at most
`chunk_size`, for positive `chunk_size`. -/
theorem split_text_bound (cs co : Nat) (hcs : 0 < cs) (text : List Char) :
    ∀ c ∈ split_text cs co text, c.length ≤ cs :=
  fun c hc => splitTextRec_bound cs co hcs defaultSeparators.length defaultSeparators
    le_rfl (by rfl) text c hc

/-- Every chunk of `split_documents` is a `split_text` piece of one input
document, carrying that document's metadata. -/
theorem mem_split_documents (cs co : Nat) (docs : List Document) (c : Document)
    (hc : c ∈ split_documents cs co docs) :
    ∃ d ∈ docs, ∃ t ∈ split_text cs co d.page_content,
      c = { d with page_content := t } := by
  unfold split_documents at hc
  rw [List.mem_flatMap] at hc
  obtain ⟨d, hd, hmem⟩ := hc
  rw [List.mem_map] at hmem
  obtain ⟨t, ht, hct⟩ := hmem
  exact ⟨d, hd, t, ht, hct.symm⟩

/-- Every chunk `ingest_file` adds is some split document rewritten by
`processChunk` at its position. -/
theorem mem_ingestChunks (cs co : Nat) (f : List Char) (pages : List Document)
    (c : Document) (hc : c ∈ Ingestor.ingestChunks cs co f pages) :
    ∃ i d, d ∈ split_documents cs co pages ∧ c = Ingestor.processChunk f i d := by
  unfold Ingestor.ingestChunks at hc
  rw [List.mem_map] at hc
  obtain ⟨⟨i, d⟩, hx, hcx⟩ := hc
  obtain ⟨hilt, hdi⟩ := List.mem_enum hx
  refine ⟨i, d, ?_, hcx.symm⟩
  rw [hdi]
  exact List.getElem_mem _

theorem processChunk_page (f : List Char) (i : Nat) (d : Document) :
    (Ingestor.processChunk f i d).page = d.page := by
  unfold Ingestor.processChunk
  rcases hd : d.page with _ | p <;> simp [hd]

theorem processChunk_chunk_id (f : List Char) (i : Nat) (d : Document) :
    (Ingestor.processChunk f i d).chunk_id = some i := by
  unfold Ingestor.processChunk
  rcases hd : d.page with _ | p <;> simp [hd]

/-- The text rewriting done by the metadata loop: prepend the page marker
when the chunk has a page, otherwise leave the text unchanged. -/
theorem processChunk_page_content (f : List Char) (i : Nat) (d : Document) :
    (Ingestor.processChunk f i d).page_content =
      (match d.page with
       | some p => Ingestor.pageTag p ++ d.page_content
       | none => d.page_content) := by
  unfold Ingestor.processChunk
  rcases hd : d.page with _ | p <;> simp [hd]

/-- Position `i` of the final chunk list is `processChunk` applied at `i` to
position `i` of the split documents. -/
theorem ingestChunks_get (cs co : Nat) (f : List Char) (pages : List Document)
    (i : Nat) (h1 : i < (Ingestor.ingestChunks cs co f pages).length)
    (h2 : i < (split_documents cs co pages).length) :
    (Ingestor.ingestChunks cs co f pages).get ⟨i, h1⟩ =
      Ingestor.processChunk f i ((split_documents cs co pages).get ⟨i, h2⟩) := by
  unfold Ingestor.ingestChunks at h1 ⊢
  simp [List.get_eq_getElem, List.getElem_map, List.getElem_enum]

/-! ## Claim theorems -/

/-- C4: pages are processed in document order with 1-indexed page numbers;
a page whose trimmed native text is non-empty yields exactly one document
with `ocr = false` and that trimmed text, without invoking OCR; otherwise
OCR is invoked on exactly that page and a document (with `ocr = true`) is
emitted precisely when the trimmed OCR output is non-empty. -/
theorem C4_page_extraction (src : List Char) :
    (∀ pages, SmartPDFLoader.load src (some pages) =
      .ok (pages.enum.filterMap (fun x => (SmartPDFLoader.loadPage src (x.1 + 1) x.2).1))) ∧
    (∀ (n : Nat) (p : PdfPage), pyStrip p.nativeText ≠ [] →
      SmartPDFLoader.loadPage src n p =
        (some { page_content := pyStrip p.nativeText, source := some src,
                page := some n, ocr := some false, chunk_id := none }, false)) ∧
    (∀ (n : Nat) (p : PdfPage), pyStrip p.nativeText = [] →
      (SmartPDFLoader.loadPage src n p).2 = true ∧
      (SmartPDFLoader.loadPage src n p).1 = SmartPDFLoader.ocr_page src n p) ∧
    (∀ (n : Nat) (p : PdfPage) (t : List Char), p.ocrResult = some t →
      SmartPDFLoader.ocr_page src n p =
        (if pyStrip t = [] then none
         else some { page_content := pyStrip t, source := some src, page := some n,
                     ocr := some true, chunk_id := none })) := by
  refine ⟨fun pages => rfl, ?_, ?_, ?_⟩
  · intro n p h
    simp [SmartPDFLoader.loadPage, h]
  · intro n p h
    constructor <;> simp [SmartPDFLoader.loadPage, h]
  · intro n p t ht
    by_cases hs : pyStrip t = [] <;> simp [SmartPDFLoader.ocr_page, ht, hs]

/-- Witness for C4 at a concrete page with native text. -/
theorem C4_page_extraction_witness :
    pyStrip "hello".toList ≠ [] ∧
    SmartPDFLoader.loadPage "s.pdf".toList 1 ⟨"hello".toList, none⟩ =
      (some { page_content := "hello".toList, source := some "s.pdf".toList,
              page := some 1, ocr := some false, chunk_id := none }, false) :=
  ⟨by decide,
   (C4_page_extraction "s.pdf".toList).2.1 1 ⟨"hello".toList, none⟩ (by decide)⟩

/-- C7: for a path that does not refer to an existing file, `load` fails
with `FileNotFoundError` and emits no documents. -/
theorem C7_file_not_found (src : List Char) :
    SmartPDFLoader.load src none = .error SmartPDFLoader.PipelineError.fileNotFound ∧
    ∀ docs, SmartPDFLoader.load src none ≠ .ok docs :=
  ⟨rfl, fun docs h => by simp [SmartPDFLoader.load] at h⟩

/-- C9: every document `SmartPDFLoader.load` returns has non-empty text that
is its own strip (no leading or trailing whitespace). -/
theorem C9_load_text_stripped_nonempty (src : List Char) (pdf : Option (List PdfPage))
    (docs : List Document) (h : SmartPDFLoader.load src pdf = .ok docs) :
    ∀ d ∈ docs, d.page_content ≠ [] ∧ pyStrip d.page_content = d.page_content := by
  intro d hd
  cases pdf with
  | none => simp [SmartPDFLoader.load] at h
  | some pages =>
      simp only [SmartPDFLoader.load, Except.ok.injEq] at h
      subst h
      rw [List.mem_filterMap] at hd
      obtain ⟨x, _, hx⟩ := hd
      by_cases hn : pyStrip x.2.nativeText = []
      · simp only [SmartPDFLoader.loadPage, hn, ne_eq, not_true_eq_false, if_false] at hx
        unfold SmartPDFLoader.ocr_page at hx
        cases ho : x.2.ocrResult with
        | none => rw [ho] at hx; simp at hx
        | some t =>
            rw [ho] at hx
            by_cases ht : pyStrip t = []
            · simp [ht] at hx
            · simp only [ht, if_false, Option.some.injEq] at hx
              subst hx
              exact ⟨ht, pyStrip_idem t⟩
      · simp only [SmartPDFLoader.loadPage, hn, ne_eq, not_false_eq_true, if_true,
          Option.some.injEq] at hx
        rw [← hx]
        exact ⟨hn, pyStrip_idem _⟩

/-- Witness for C9 at a concrete loaded PDF. -/
theorem C9_load_text_stripped_nonempty_witness :
    SmartPDFLoader.load "s.pdf".toList (some [⟨" hello ".toList, none⟩]) =
      .ok [{ page_content := "hello".toList, source := some "s.pdf".toList,
             page := some 1, ocr := some false, chunk_id := none }] ∧
    ("hello".toList ≠ [] ∧ pyStrip "hello".toList = "hello".toList) :=
  ⟨by rfl,
   C9_load_text_stripped_nonempty "s.pdf".toList (some [⟨" hello ".toList, none⟩])
     [{ page_content := "hello".toList, source := some "s.pdf".toList,
        page := some 1, ocr := some false, chunk_id := none }]
     (by rfl) _ (List.mem_singleton.mpr rfl)⟩

/-- C8: `ask` keeps no conversation state: any sequence of prior `ask` calls
leaves the store untouched, and the retrieval-and-prompt input (hence the
answer) for a question is the same as with no prior calls. -/
theorem C8_ask_stateless (retrieve : StoreState → Nat → List Char → List Document)
    (chatModel : PdfChat.PromptInput → List Char) (st : StoreState)
    (qs : List (List Char)) (q : List Char) :
    (PdfChat.askMany retrieve chatModel st qs).1 = st ∧
    PdfChat.promptInput retrieve (PdfChat.askMany retrieve chatModel st qs).1 q =
      PdfChat.promptInput retrieve st q ∧
    PdfChat.ask retrieve chatModel (PdfChat.askMany retrieve chatModel st qs).1 q =
      PdfChat.ask retrieve chatModel st q := by
  have hst : (PdfChat.askMany retrieve chatModel st qs).1 = st := by
    induction qs generalizing st with
    | nil => rfl
    | cons q2 rest ih => simpa [PdfChat.askMany, PdfChat.ask] using ih st
  exact ⟨hst, by rw [hst], by rw [hst]⟩

/-- C5: the `chunk_id` metadata values of the chunks `ingest_file` adds form
a contiguous 0-based sequence equal to each chunk's position in the final
flattened output order. -/
theorem C5_chunk_index_contiguous (cs co : Nat) (f : List Char) (pages : List Document)
    (i : Nat) (h : i < (Ingestor.ingestChunks cs co f pages).length) :
    ((Ingestor.ingestChunks cs co f pages).get ⟨i, h⟩).chunk_id = some i := by
  have h2 : i < (split_documents cs co pages).length := by
    have h3 := h
    unfold Ingestor.ingestChunks at h3
    simpa using h3
  rw [ingestChunks_get cs co f pages i h h2, processChunk_chunk_id]

/-- Witness for C5 at a two-chunk concrete run. -/
theorem C5_chunk_index_contiguous_witness :
    1 < (Ingestor.ingestChunks 10 3 "doc.pdf".toList
      [{ page_content := "hello world foo".toList, source := some "doc.pdf".toList,
         page := some 1, ocr := some false, chunk_id := none }]).length ∧
    ((Ingestor.ingestChunks 10 3 "doc.pdf".toList
      [{ page_content := "hello world foo".toList, source := some "doc.pdf".toList,
         page := some 1, ocr := some false, chunk_id := none }]).get
        ⟨1, by decide⟩).chunk_id = some 1 :=
  ⟨by decide,
   C5_chunk_index_contiguous 10 3 "doc.pdf".toList
     [{ page_content := "hello world foo".toList, source := some "doc.pdf".toList,
        page := some 1, ocr := some false, chunk_id := none }] 1 (by decide)⟩

/-- C6: a file whose suffix is not a recognized document extension is
rejected with the unsupported-file-type error, and no later stage runs: the
result does not depend on the file's contents and no chunks reach the
store. -/
theorem C6_unsupported_file_type (cs co : Nat) (f : List Char)
    (pdf : Option (List PdfPage)) (st : StoreState)
    (h : pySuffix f ≠ ".pdf".toList) :
    Ingestor.ingest_file cs co f pdf st =
      .error SmartPDFLoader.PipelineError.unsupportedFileType ∧
    ∀ pdf2, Ingestor.ingest_file cs co f pdf2 st = Ingestor.ingest_file cs co f pdf st := by
  constructor
  · unfold Ingestor.ingest_file
    rw [if_pos h]
  · intro pdf2
    unfold Ingestor.ingest_file
    rw [if_pos h, if_pos h]

/-- Witness for C6 at a text file. -/
theorem C6_unsupported_file_type_witness :
    pySuffix "notes.txt".toList ≠ ".pdf".toList ∧
    (Ingestor.ingest_file 800 150 "notes.txt".toList (some [⟨"hello".toList, none⟩]) ⟨[]⟩ =
      .error SmartPDFLoader.PipelineError.unsupportedFileType ∧
    ∀ pdf2, Ingestor.ingest_file 800 150 "notes.txt".toList pdf2 ⟨[]⟩ =
      Ingestor.ingest_file 800 150 "notes.txt".toList (some [⟨"hello".toList, none⟩]) ⟨[]⟩) :=
  ⟨by decide,
   C6_unsupported_file_type 800 150 "notes.txt".toList (some [⟨"hello".toList, none⟩]) ⟨[]⟩
     (by decide)⟩

/-- C10: the extension check is an exact, case-sensitive comparison of
`Path.suffix` with `.pdf`: any file name whose suffix differs (for example
`.PDF`) is rejected, whatever the file's contents. -/
theorem C10_suffix_check_case_sensitive (cs co : Nat) (f : List Char)
    (pdf : Option (List PdfPage)) (st : StoreState)
    (h : pySuffix f ≠ ".pdf".toList) :
    Ingestor.ingest_file cs co f pdf st =
      .error SmartPDFLoader.PipelineError.unsupportedFileType := by
  unfold Ingestor.ingest_file
  rw [if_pos h]

/-- Witness for C10: `doc.PDF` is a valid PDF on disk yet is rejected. -/
theorem C10_suffix_check_case_sensitive_witness :
    pySuffix "doc.PDF".toList = ".PDF".toList ∧
    pySuffix "doc.PDF".toList ≠ ".pdf".toList ∧
    Ingestor.ingest_file 800 150 "doc.PDF".toList (some [⟨"hello".toList, none⟩]) ⟨[]⟩ =
      .error SmartPDFLoader.PipelineError.unsupportedFileType :=
  ⟨by decide, by decide,
   C10_suffix_check_case_sensitive 800 150 "doc.PDF".toList
     (some [⟨"hello".toList, none⟩]) ⟨[]⟩ (by decide)⟩

/-- C1 counterexample: the marker actually prepended is `[PAGINA <n>]\n`
(the Italian wording in the source), not `[PAGE <n>]\n`. -/
theorem C1_counterexample :
    Ingestor.ingest_file 800 150 "doc.pdf".toList (some [⟨"hello".toList, none⟩]) ⟨[]⟩ =
      .ok ⟨[{ page_content := "[PAGINA 1]\nhello".toList, source := some "doc.pdf".toList,
              page := some 1, ocr := some false, chunk_id := some 0 }]⟩ ∧
    List.isPrefixOf "[PAGE 1]\n".toList "[PAGINA 1]\nhello".toList = false :=
  ⟨rfl, by decide⟩

/-- C1 (amended): each chunk with a known page number has its text rewritten
to prepend the visible marker `[PAGINA <n>]\n` before the original chunk
text; chunks without a page number keep their text unchanged. -/
theorem C1_page_marker_amended (cs co : Nat) (f : List Char) (pages : List Document)
    (i : Nat) (h1 : i < (Ingestor.ingestChunks cs co f pages).length)
    (h2 : i < (split_documents cs co pages).length) :
    ((Ingestor.ingestChunks cs co f pages).get ⟨i, h1⟩).page_content =
      (match ((split_documents cs co pages).get ⟨i, h2⟩).page with
       | some p =>
          Ingestor.pageTag p ++ ((split_documents cs co pages).get ⟨i, h2⟩).page_content
       | none => ((split_documents cs co pages).get ⟨i, h2⟩).page_content) := by
  rw [ingestChunks_get cs co f pages i h1 h2, processChunk_page_content]

/-- Witness for the amended C1 at a concrete one-page run. -/
theorem C1_page_marker_amended_witness :
    0 < (Ingestor.ingestChunks 800 150 "doc.pdf".toList
      [{ page_content := "hello".toList, source := some "doc.pdf".toList,
         page := some 1, ocr := some false, chunk_id := none }]).length ∧
    0 < (split_documents 800 150
      [{ page_content := "hello".toList, source := some "doc.pdf".toList,
         page := some 1, ocr := some false, chunk_id := none }]).length ∧
    ((Ingestor.ingestChunks 800 150 "doc.pdf".toList
      [{ page_content := "hello".toList, source := some "doc.pdf".toList,
         page := some 1, ocr := some false, chunk_id := none }]).get
        ⟨0, by decide⟩).page_content =
      (match ((split_documents 800 150
        [{ page_content := "hello".toList, source := some "doc.pdf".toList,
           page := some 1, ocr := some false, chunk_id := none }]).get
          ⟨0, by decide⟩).page with
       | some p =>
          Ingestor.pageTag p ++ ((split_documents 800 150
            [{ page_content := "hello".toList, source := some "doc.pdf".toList,
               page := some 1, ocr := some false, chunk_id := none }]).get
              ⟨0, by decide⟩).page_content
       | none => ((split_documents 800 150
            [{ page_content := "hello".toList, source := some "doc.pdf".toList,
               page := some 1, ocr := some false, chunk_id := none }]).get
              ⟨0, by decide⟩).page_content) :=
  ⟨by decide, by decide,
   C1_page_marker_amended 800 150 "doc.pdf".toList
     [{ page_content := "hello".toList, source := some "doc.pdf".toList,
        page := some 1, ocr := some false, chunk_id := none }] 0 (by decide) (by decide)⟩

/-- C2 counterexample: with `chunk_size = 10 > chunk_overlap = 3`, a ten-`a`
page becomes a single 10-character chunk, and the page-marker rewrite then
makes the stored text 21 characters long, exceeding `chunk_size`. -/
theorem C2_counterexample :
    3 < 10 ∧
    Ingestor.ingest_file 10 3 "a.pdf".toList (some [⟨"aaaaaaaaaa".toList, none⟩]) ⟨[]⟩ =
      .ok ⟨[{ page_content := "[PAGINA 1]\naaaaaaaaaa".toList, source := some "a.pdf".toList,
              page := some 1, ocr := some false, chunk_id := some 0 }]⟩ ∧
    ¬ ("[PAGINA 1]\naaaaaaaaaa".toList.length ≤ 10) :=
  ⟨by decide, rfl, by decide⟩

/-- C2 (amended): for `chunk_overlap < chunk_size`, every chunk the splitter
produces has length at most `chunk_size`; the subsequent page-marker rewrite
can add at most the marker's length, so every chunk as added to the store
has length at most `chunk_size` plus the length of its `[PAGINA <n>]\n`
marker (and exactly `chunk_size` when it has no page number). -/
theorem C2_chunk_length_amended (cs co : Nat) (f : List Char) (pages : List Document)
    (hco : co < cs) :
    (∀ c ∈ split_documents cs co pages, c.page_content.length ≤ cs) ∧
    (∀ c ∈ Ingestor.ingestChunks cs co f pages,
      c.page_content.length ≤ cs +
        (match c.page with
         | some p => (Ingestor.pageTag p).length
         | none => 0)) := by
  have hcs : 0 < cs := Nat.lt_of_le_of_lt (Nat.zero_le co) hco
  have hsplit : ∀ c ∈ split_documents cs co pages, c.page_content.length ≤ cs := by
    intro c hc
    obtain ⟨d, _, t, ht, hct⟩ := mem_split_documents cs co pages c hc
    rw [hct]
    exact split_text_bound cs co hcs d.page_content t ht
  refine ⟨hsplit, ?_⟩
  intro c hc
  obtain ⟨i, d, hd, hcd⟩ := mem_ingestChunks cs co f pages c hc
  have h1 : d.page_content.length ≤ cs := hsplit d hd
  rw [hcd, processChunk_page_content, processChunk_page]
  rcases hp : d.page with _ | p
  · simpa using h1
  · simp only [List.length_append]
    omega

/-- Witness for the amended C2 at a concrete run. -/
theorem C2_chunk_length_amended_witness :
    3 < 10 ∧
    ((∀ c ∈ split_documents 10 3
        [{ page_content := "aaaaaaaaaa".toList, source := some "a.pdf".toList,
           page := some 1, ocr := some false, chunk_id := none }],
      c.page_content.length ≤ 10) ∧
    (∀ c ∈ Ingestor.ingestChunks 10 3 "a.pdf".toList
        [{ page_content := "aaaaaaaaaa".toList, source := some "a.pdf".toList,
           page := some 1, ocr := some false, chunk_id := none }],
      c.page_content.length ≤ 10 +
        (match c.page with
         | some p => (Ingestor.pageTag p).length
         | none => 0))) :=
  ⟨by decide,
   C2_chunk_length_amended 10 3 "a.pdf".toList
     [{ page_content := "aaaaaaaaaa".toList, source := some "a.pdf".toList,
        page := some 1, ocr := some false, chunk_id := none }] (by decide)⟩

/-- C3 counterexample: the persisted index is discarded in `__init__`
(`_instantiate_vector_store`), not at each `ingest_file` call; two successive
`ingest_file` runs on the same `Ingestor` accumulate both runs' chunks, so
the index after the second run is not exactly that run's chunks. -/
theorem C3_counterexample :
    Ingestor.ingest_file 800 150 "doc.pdf".toList (some [⟨"hello".toList, none⟩])
        (Ingestor.init ⟨[]⟩) =
      .ok ⟨[{ page_content := "[PAGINA 1]\nhello".toList, source := some "doc.pdf".toList,
              page := some 1, ocr := some false, chunk_id := some 0 }]⟩ ∧
    Ingestor.ingest_file 800 150 "doc.pdf".toList (some [⟨"world".toList, none⟩])
        ⟨[{ page_content := "[PAGINA 1]\nhello".toList, source := some "doc.pdf".toList,
            page := some 1, ocr := some false, chunk_id := some 0 }]⟩ =
      .ok ⟨[{ page_content := "[PAGINA 1]\nhello".toList, source := some "doc.pdf".toList,
              page := some 1, ocr := some false, chunk_id := some 0 },
            { page_content := "[PAGINA 1]\nworld".toList, source := some "doc.pdf".toList,
              page := some 1, ocr := some false, chunk_id := some 0 }]⟩ ∧
    ([{ page_content := "[PAGINA 1]\nhello".toList, source := some "doc.pdf".toList,
        page := some 1, ocr := some false, chunk_id := some 0 },
      { page_content := "[PAGINA 1]\nworld".toList, source := some "doc.pdf".toList,
        page := some 1, ocr := some false, chunk_id := some 0 }] : List Document) ≠
      Ingestor.ingestChunks 800 150 "doc.pdf".toList
        [{ page_content := "world".toList, source := some "doc.pdf".toList,
           page := some 1, ocr := some false, chunk_id := none }] :=
  ⟨rfl, rfl, by decide⟩

/-- C3 (amended): persisted index data is discarded when the `Ingestor` is
constructed, not at each `ingest_file` call; after constructing an `Ingestor`
(which resets the store, whatever was persisted before) and ingesting once,
the index contains exactly that run's chunks.  Repeated `ingest_file` calls
on the same `Ingestor` accumulate chunks instead. -/
theorem C3_reset_amended (cs co : Nat) (f : List Char) (pdf : Option (List PdfPage))
    (prior st : StoreState)
    (h : Ingestor.ingest_file cs co f pdf (Ingestor.init prior) = .ok st) :
    ∃ pages, SmartPDFLoader.load f pdf = .ok pages ∧
      st.persisted = Ingestor.ingestChunks cs co f pages := by
  unfold Ingestor.ingest_file at h
  by_cases hsuf : pySuffix f ≠ ".pdf".toList
  · rw [if_pos hsuf] at h
    simp at h
  · rw [if_neg hsuf] at h
    cases hload : SmartPDFLoader.load f pdf with
    | error e => rw [hload] at h; simp at h
    | ok pages =>
        rw [hload] at h
        simp only [Except.ok.injEq] at h
        subst h
        exact ⟨pages, rfl, rfl⟩

/-- Witness for the amended C3: a non-empty prior store is discarded by
construction and one ingest run leaves exactly that run's chunks. -/
theorem C3_reset_amended_witness :
    Ingestor.ingest_file 800 150 "doc.pdf".toList (some [⟨"hello".toList, none⟩])
        (Ingestor.init ⟨[{ page_content := "old".toList }]⟩) =
      .ok ⟨[{ page_content := "[PAGINA 1]\nhello".toList, source := some "doc.pdf".toList,
              page := some 1, ocr := some false, chunk_id := some 0 }]⟩ ∧
    ∃ pages, SmartPDFLoader.load "doc.pdf".toList (some [⟨"hello".toList, none⟩]) =
        .ok pages ∧
      [{ page_content := "[PAGINA 1]\nhello".toList, source := some "doc.pdf".toList,
         page := some 1, ocr := some false, chunk_id := some 0 }] =
        Ingestor.ingestChunks 800 150 "doc.pdf".toList pages :=
  ⟨rfl,
   C3_reset_amended 800 150 "doc.pdf".toList (some [⟨"hello".toList, none⟩])
     ⟨[{ page_content := "old".toList }]⟩
     ⟨[{ page_content := "[PAGINA 1]\nhello".toList, source := some "doc.pdf".toList,
         page := some 1, ocr := some false, chunk_id := some 0 }]⟩ rfl⟩
